import Mathlib

/-!
Verification development for the robust random cut tree (RCTree) core:
node model, randomized cut construction, leaf deletion with structural
repair, subtree counting, partition query and the displacement /
collusive-displacement scoring functions, shallowly embedded from
src/rrcf/rrcf.py.  Coordinates and cut thresholds are modelled as
rationals, Python ints as Int / Nat, and raised Python exceptions as
Except values.
-/

namespace RRCF

/-- Node model: a Branch holds cut dimension q, cut threshold p, two
children and a subtree count n; a Leaf holds its point index i, its
stored depth d (a Python int, possibly negative after updates) and its
count n.  Parent pointers of the source are represented implicitly by
the tree structure. -/
inductive RNode : Type
  | leaf (i : Nat) (d : Int) (n : Nat)
  | branch (q : Nat) (p : ℚ) (l : RNode) (r : RNode) (n : Nat)
deriving DecidableEq

/-- Stored subtree count field n of a node. -/
def nOf : RNode → Nat
  | .leaf _ _ n => n
  | .branch _ _ _ _ n => n

/-- Indices of all leaves beneath a node, in left-to-right traversal
order (the order traverse visits leaves). -/
def leafIndices : RNode → List Nat
  | .leaf i _ _ => [i]
  | .branch _ _ l r _ => leafIndices l ++ leafIndices r

/-- Membership of an index in the leaf map (the leaves dict always holds
exactly the leaves of the tree). -/
def hasLeaf : RNode → Nat → Bool
  | .leaf i _ _, y => i == y
  | .branch _ _ l r _, y => hasLeaf l y || hasLeaf r y

/-- Actual number of leaves beneath a node, as traverse together with
the accumulate visitor counts them. -/
def leafCount : RNode → Nat
  | .leaf _ _ _ => 1
  | .branch _ _ l r _ => leafCount l + leafCount r

/-- Stored depth field d of the leaf with index y (0 if absent; the
source reads it through the leaves dict). -/
def getLeafD : RNode → Nat → Int
  | .leaf i d _, y => if i == y then d else 0
  | .branch _ _ l r _, y => if hasLeaf l y then getLeafD l y else getLeafD r y

/-- Number of Branch ancestors of the leaf with index y. -/
def ancestorCount : RNode → Nat → Nat
  | .leaf _ _ _, _ => 0
  | .branch _ _ l r _, y =>
    if hasLeaf l y then 1 + ancestorCount l y
    else if hasLeaf r y then 1 + ancestorCount r y
    else 0

/-- Count invariant: every leaf stores n = 1 and every branch stores
n = sum of its children's stored n. -/
def countOK : RNode → Bool
  | .leaf _ _ n => n == 1
  | .branch _ _ l r n => countOK l && countOK r && (n == nOf l + nOf r)

/-- Depth invariant relative to a starting level k: every leaf's stored
d equals k plus the number of branches above it inside this subtree. -/
def depthsFrom : RNode → Int → Bool
  | .leaf _ d _, k => d == k
  | .branch _ _ l r _, k => depthsFrom l (k + 1) && depthsFrom r (k + 1)

/-- Python exceptions raised by the source methods. -/
inductive PyErr : Type
  | keyError        -- dict lookup / pop of a missing index
  | attributeError  -- attribute access on None (missing parent / grandparent)
  | valueError      -- max() of an empty sequence
deriving DecidableEq

/-- Test whether a node is the leaf with index x. -/
def isLeafIdx : RNode → Nat → Bool
  | .leaf i _ _, x => i == x
  | .branch _ _ _ _ _, _ => false

/-- Test whether one of a node's direct children is the leaf with
index x (then this node is that leaf's parent). -/
def directChildIdx : RNode → Nat → Bool
  | .leaf _ _ _, _ => false
  | .branch _ _ l r _, x => isLeafIdx l x || isLeafIdx r x

/-- Decrement the stored depth of every leaf in a subtree by 1: the
effect of traverse(node, op=_increment_depth, inc=-1), whose op runs
on leaves only. -/
def decAll : RNode → RNode
  | .leaf i d n => .leaf i (d - 1) n
  | .branch q p l r n => .branch q p (decAll l) (decAll r) n

/-- Sibling of the leaf with index x among a parent node's children
(parent.r if the leaf is parent.l, else parent.l). -/
def sibOf : RNode → Nat → RNode
  | .leaf i d n, _ => .leaf i d n
  | .branch _ _ a b _, x => if isLeafIdx a x then b else a

/-- Core of delete_leaf: locate the grandparent of leaf x, replace the
parent by the leaf's sibling in the grandparent's slot, and decrement
the stored depth of every leaf beneath the grandparent (the source
walks traverse(grandparent, op=_increment_depth, inc=-1)).  Returns
none when x has no grandparent inside this subtree. -/
def delAux : RNode → Nat → Option RNode
  | .leaf _ _ _, _ => none
  | .branch q p l r n, x =>
    if directChildIdx l x then some (decAll (.branch q p (sibOf l x) r n))
    else if directChildIdx r x then some (decAll (.branch q p l (sibOf r x) n))
    else if hasLeaf l x then (delAux l x).map (fun l1 => .branch q p l1 r n)
    else if hasLeaf r x then (delAux r x).map (fun r1 => .branch q p l r1 n)
    else none

/-- delete_leaf(x): pops x from the leaves dict (KeyError if absent),
locates parent and grandparent, splices the sibling into the parent's
slot and decrements depths beneath the grandparent.  When the leaf is
the root (parent is None) the read parent.u raises AttributeError;
when the parent is the root (grandparent is None) the read
grandparent.l raises AttributeError. -/
def delete_leaf (t : RNode) (x : Nat) : Except PyErr RNode :=
  if hasLeaf t x = false then .error .keyError
  else match t with
    | .leaf _ _ _ => .error .attributeError
    | .branch q p l r n =>
      if directChildIdx (.branch q p l r n) x then .error .attributeError
      else match delAux (.branch q p l r n) x with
        | some t' => .ok t'
        | none => .error .attributeError

/-- Whether leaf y lies beneath the grandparent of leaf x (the node at
which delete_leaf splices and from which it decrements depths).  The
conditional structure mirrors delAux. -/
def underGP : RNode → Nat → Nat → Bool
  | .leaf _ _ _, _, _ => false
  | .branch q p l r n, x, y =>
    if directChildIdx l x || directChildIdx r x then hasLeaf (.branch q p l r n) y
    else if hasLeaf l x then underGP l x y
    else if hasLeaf r x then underGP r x y
    else false

/-- Post-construction counting pass _count_all_top_down: recompute each
branch's n bottom-up as the sum of its children's n. -/
def count_all_top_down : RNode → RNode
  | .leaf i d n => .leaf i d n
  | .branch q p l r _ =>
    let l' := count_all_top_down l
    let r' := count_all_top_down r
    .branch q p l' r' (nOf l' + nOf r')

/-- Coordinate q of point i of the batch X (X[i][q]). -/
def coordQ (X : List (List ℚ)) (i q : Nat) : ℚ := (X.getD i []).getD q 0

/-- Minimum of coordinate q over the active subset S (X[S].min(axis=0)
in dimension q); 0 on an empty subset. -/
def xminQ (X : List (List ℚ)) (S : List Nat) (q : Nat) : ℚ :=
  match S with
  | [] => 0
  | i :: rest => rest.foldl (fun m j => min m (coordQ X j q)) (coordQ X i q)

/-- Maximum of coordinate q over the active subset S; 0 on an empty
subset. -/
def xmaxQ (X : List (List ℚ)) (S : List Nat) (q : Nat) : ℚ :=
  match S with
  | [] => 0
  | i :: rest => rest.foldl (fun m j => max m (coordQ X j q)) (coordQ X i q)

/-- Per-dimension ranges xmax - xmin over the active subset. -/
def ranges (X : List (List ℚ)) (S : List Nat) (ndim : Nat) : List ℚ :=
  (List.range ndim).map (fun q => xmaxQ X S q - xminQ X S q)

/-- Failure of the cut step. -/
inductive CutFail : Type
  | nanProbValueError -- l /= l.sum() with zero sum yields NaN probabilities and np.random.choice raises ValueError
  | degenerateInput   -- the designated error the spec asks a reimplementation to raise; the source never produces it
deriving DecidableEq

/-- One _cut step with the sampled dimension q and threshold p made
explicit: when the range sum is zero the probability vector is 0/0 =
NaN and np.random.choice raises; otherwise S is split into S1 (the
points of S with coordinate q at most p) and S2 (the rest of S). -/
def cut (X : List (List ℚ)) (S : List Nat) (ndim q : Nat) (p : ℚ) :
    Except CutFail (List Nat × List Nat) :=
  if (ranges X S ndim).sum = 0 then .error .nanProbValueError
  else .ok (S.filter (fun i => decide (coordQ X i q ≤ p)),
            S.filter (fun i => ! decide (coordQ X i q ≤ p)))

/-- Trees producible by _mktree on the active subset S at depth d: a
singleton subset becomes a Leaf with stored depth d (the source calls
_mktree with the incremented depth, so leaves directly under the root
store d = 1); a larger subset is cut at a sampled dimension q and a
threshold p drawn from [xmin_q, xmax_q), split by coordinate q at most
p, and both sides are built at depth d + 1.  Branches are created with
n = 0 as in the Branch constructor. -/
inductive Built (X : List (List ℚ)) : List Nat → Int → RNode → Prop
  | single (i : Nat) (d : Int) : Built X [i] d (.leaf i d 1)
  | node (S : List Nat) (q : Nat) (p : ℚ) (d : Int) (l r : RNode)
      (hlen : 2 ≤ S.length)
      (hlow : xminQ X S q ≤ p)
      (hhigh : p < xmaxQ X S q)
      (hl : Built X (S.filter (fun i => decide (coordQ X i q ≤ p))) (d + 1) l)
      (hr : Built X (S.filter (fun i => ! decide (coordQ X i q ≤ p))) (d + 1) r) :
      Built X S d (.branch q p l r 0)

/-- Trees produced by construction: _mktree over all indices of the
batch starting at depth 0, followed by the _count_all_top_down pass. -/
def BuiltTree (X : List (List ℚ)) (t : RNode) : Prop :=
  ∃ t0, Built X (List.range X.length) 0 t0 ∧ t = count_all_top_down t0

/-- Trees reachable by the public interface: built by construction, or
obtained from a reachable tree by a successful delete_leaf. -/
inductive Reachable (X : List (List ℚ)) : RNode → Prop
  | built (t0 t : RNode) :
      Built X (List.range X.length) 0 t0 → t = count_all_top_down t0 → Reachable X t
  | step (t t' : RNode) (x : Nat) :
      Reachable X t → delete_leaf t x = .ok t' → Reachable X t'

/-- Coordinate q of a query point (point[q]). -/
def coordOf (pt : List ℚ) (q : Nat) : ℚ := pt.getD q 0

/-- _query: descend from a node, going left when point[q] <= p and
right otherwise, until a Leaf is reached. -/
def query : RNode → List ℚ → RNode
  | .leaf i d n, _ => .leaf i d n
  | .branch q p l r _, pt => if coordOf pt q ≤ p then query l pt else query r pt

/-- Per-ancestor-level pairs (leaves below this level's node on x's
path, leaves of its sibling subtree), actual counts as traverse
computes them, ordered from the immediate parent up to the root. -/
def levels : RNode → Nat → List (Nat × Nat)
  | .leaf _ _ _, _ => []
  | .branch _ _ l r _, x =>
    if hasLeaf l x then levels l x ++ [(leafCount l, leafCount r)]
    else if hasLeaf r x then levels r x ++ [(leafCount r, leafCount l)]
    else []

/-- Per-ancestor-level pairs like levels, but reading the stored n
fields, as codisp_all and disp_all do. -/
def levelsN : RNode → Nat → List (Nat × Nat)
  | .leaf _ _ _, _ => []
  | .branch _ _ l r _, x =>
    if hasLeaf l x then levelsN l x ++ [(nOf l, nOf r)]
    else if hasLeaf r x then levelsN r x ++ [(nOf r, nOf l)]
    else []

/-- Ratios produced by the codisp loop: the accumulators num_deleted
and displacement are initialized once before the loop and are never
reset, so each level divides the running sums of self counts and
sibling counts accumulated so far. -/
def ratiosCum : List (Nat × Nat) → Nat → Nat → List ℚ
  | [], _, _ => []
  | (selfC, sibC) :: rest, accSelf, accSib =>
    ((accSib + sibC : ℚ) / (accSelf + selfC : ℚ)) :: ratiosCum rest (accSelf + selfC) (accSib + sibC)

/-- disp(x): KeyError if x is not in the leaves dict; AttributeError if
the leaf is the root (parent is None); otherwise the actual leaf count
of the sibling subtree of x's leaf. -/
def disp (t : RNode) (x : Nat) : Except PyErr Nat :=
  if hasLeaf t x = false then .error .keyError
  else match levels t x with
    | [] => .error .attributeError
    | (_, sib) :: _ => .ok sib

/-- codisp(x): KeyError if x is absent; then at most d0 = stored depth
of the leaf levels are climbed (the upward walk also stops at the
root), the cumulative ratios are collected, and the maximum is
returned; max of an empty list raises ValueError. -/
def codisp (t : RNode) (x : Nat) : Except PyErr ℚ :=
  if hasLeaf t x = false then .error .keyError
  else
    match ratiosCum ((levels t x).take (getLeafD t x).toNat) 0 0 with
    | [] => .error .valueError
    | r :: rs => .ok (rs.foldl max r)

/-- Value codisp_all computes for one present index: per-level ratios
sibling n over self n read from the stored n fields, no accumulation
across levels, maximum over the levels climbed. -/
def codispAllAt (t : RNode) (x : Nat) : Except PyErr ℚ :=
  match ((levelsN t x).take (getLeafD t x).toNat).map
      (fun pr => (pr.2 : ℚ) / (pr.1 : ℚ)) with
  | [] => .error .valueError
  | r :: rs => .ok (rs.foldl max r)

/-- codisp_all(): one entry per index of the leaves dict. -/
def codisp_all (t : RNode) : List (Nat × Except PyErr ℚ) :=
  (leafIndices t).map (fun i => (i, codispAllAt t i))

/-- Value disp_all computes for one present index: the stored n of the
sibling of x's leaf (AttributeError modelled for a root leaf, which has
no parent). -/
def dispAllAt (t : RNode) (x : Nat) : Except PyErr Nat :=
  match levelsN t x with
  | [] => .error .attributeError
  | (_, sib) :: _ => .ok sib

/-- disp_all(): one entry per index of the leaves dict. -/
def disp_all (t : RNode) : List (Nat × Except PyErr Nat) :=
  (leafIndices t).map (fun i => (i, dispAllAt t i))

/-- Comparator following the spec's description of codisp: at each
ancestor level climbed from x's leaf toward the root, the ratio of the
sibling subtree's actual leaf count to the actual leaf count of the
subtree just below that level, and the maximum of these ratios. -/
def codisp_spec (t : RNode) (x : Nat) : Except PyErr ℚ :=
  if hasLeaf t x = false then .error .keyError
  else
    match (levels t x).map (fun pr => (pr.2 : ℚ) / (pr.1 : ℚ)) with
    | [] => .error .valueError
    | r :: rs => .ok (rs.foldl max r)

/-- State-passing form of query: the method body reads node fields and
assigns no attribute, so it returns the tree state unchanged. -/
def queryS (t : RNode) (pt : List ℚ) : RNode × RNode := (t, query t pt)

/-- State-passing form of disp: reads nodes and a local accumulator
only, so the tree state is unchanged. -/
def dispS (t : RNode) (x : Nat) : RNode × Except PyErr Nat := (t, disp t x)

/-- State-passing form of codisp: reads nodes and local accumulators
only, so the tree state is unchanged. -/
def codispS (t : RNode) (x : Nat) : RNode × Except PyErr ℚ := (t, codisp t x)

/-- State-passing form of disp_all. -/
def dispAllS (t : RNode) : RNode × List (Nat × Except PyErr Nat) := (t, disp_all t)

/-- State-passing form of codisp_all. -/
def codispAllS (t : RNode) : RNode × List (Nat × Except PyErr ℚ) := (t, codisp_all t)

/-- Three collinear 1-d points. -/
def X3 : List (List ℚ) := [[0], [1], [2]]

/-- A tree _mktree can build on X3: cut at p = 1 separating {0,1} from
{2}, then cut at p = 0 separating {0} from {1}. -/
def T3raw : RNode :=
  .branch 0 1 (.branch 0 0 (.leaf 0 2 1) (.leaf 1 2 1) 0) (.leaf 2 1 1) 0

/-- T3raw after the counting pass. -/
def T3 : RNode := count_all_top_down T3raw

/-- The tree delete_leaf(0) produces from T3: leaf 1 spliced into the
parent's slot, depths beneath the grandparent (the root) all
decremented, stored counts untouched. -/
def T3del : RNode := .branch 0 1 (.leaf 1 1 1) (.leaf 2 0 1) 3

/-- A two-point tree: each leaf's parent is the root. -/
def T2 : RNode := .branch 0 0 (.leaf 0 1 1) (.leaf 1 1 1) 2

/-- Two coincident 2-d points: every range is zero. -/
def X2c : List (List ℚ) := [[1, 2], [1, 2]]

/-- A ten-point tree _mktree can build on the 1-d batch 0,...,9: leaf 0
is paired with leaf 1, and the other eight points hang in a comb to the
right of the root. -/
def T10raw : RNode :=
  let c8 : RNode := .branch 0 8 (.leaf 8 8 1) (.leaf 9 8 1) 0
  let c7 : RNode := .branch 0 7 (.leaf 7 7 1) c8 0
  let c6 : RNode := .branch 0 6 (.leaf 6 6 1) c7 0
  let c5 : RNode := .branch 0 5 (.leaf 5 5 1) c6 0
  let c4 : RNode := .branch 0 4 (.leaf 4 4 1) c5 0
  let c3 : RNode := .branch 0 3 (.leaf 3 3 1) c4 0
  let c2 : RNode := .branch 0 2 (.leaf 2 2 1) c3 0
  .branch 0 1 (.branch 0 0 (.leaf 0 2 1) (.leaf 1 2 1) 0) c2 0

/-- T10raw after the counting pass: all stored n correct. -/
def T10 : RNode := count_all_top_down T10raw

lemma hasLeaf_iff_mem (t : RNode) (y : Nat) : hasLeaf t y = true ↔ y ∈ leafIndices t := by
  induction t with
  | leaf i d n =>
    simp only [hasLeaf, leafIndices, beq_iff_eq, List.mem_singleton]
    exact eq_comm
  | branch q p l r n ihl ihr => simp [hasLeaf, leafIndices, ihl, ihr]

lemma leafIndices_decAll (t : RNode) : leafIndices (decAll t) = leafIndices t := by
  induction t with
  | leaf i d n => rfl
  | branch q p l r n ihl ihr => simp [decAll, leafIndices, ihl, ihr]

lemma hasLeaf_decAll (t : RNode) (y : Nat) : hasLeaf (decAll t) y = hasLeaf t y := by
  induction t with
  | leaf i d n => rfl
  | branch q p l r n ihl ihr => simp [decAll, hasLeaf, ihl, ihr]

lemma getLeafD_decAll (t : RNode) (y : Nat) (hy : hasLeaf t y = true) :
    getLeafD (decAll t) y = getLeafD t y - 1 := by
  induction t with
  | leaf i d n =>
    have hiy : i = y := by simpa [hasLeaf] using hy
    subst hiy
    simp [decAll, getLeafD]
  | branch q p l r n ihl ihr =>
    by_cases hl : hasLeaf l y = true
    · simp [decAll, getLeafD, hasLeaf_decAll, hl, ihl hl]
    · have hl' : hasLeaf l y = false := by simpa using hl
      have hr : hasLeaf r y = true := by
        have h2 := hy
        simp [hasLeaf, hl'] at h2
        exact h2
      simp [decAll, getLeafD, hasLeaf_decAll, hl', ihr hr]

lemma underGP_of_not_has (t : RNode) (x y : Nat) (hy : hasLeaf t y = false) :
    underGP t x y = false := by
  induction t with
  | leaf i d n => rfl
  | branch q p l r n ihl ihr =>
    have hp : hasLeaf l y = false ∧ hasLeaf r y = false := by simpa [hasLeaf] using hy
    simp only [underGP]
    split_ifs with h1 h2 h3
    · exact hy
    · exact ihl hp.1
    · exact ihr hp.2
    · rfl

lemma hasLeaf_eq_false_iff (t : RNode) (y : Nat) :
    hasLeaf t y = false ↔ y ∉ leafIndices t := by
  rw [← hasLeaf_iff_mem]
  simp

lemma getLeafD_of_not_has (t : RNode) (y : Nat) (hy : hasLeaf t y = false) :
    getLeafD t y = 0 := by
  induction t with
  | leaf i d n =>
    have hiy : (i == y) = false := by simpa [hasLeaf] using hy
    simp [getLeafD, hiy]
  | branch q p l r n ihl ihr =>
    have hp : hasLeaf l y = false ∧ hasLeaf r y = false := by simpa [hasLeaf] using hy
    simp [getLeafD, hp.1, ihr hp.2]

lemma isLeafIdx_eq (c : RNode) (x : Nat) (h : isLeafIdx c x = true) :
    ∃ d n, c = .leaf x d n := by
  cases c with
  | leaf i d n =>
    have hix : i = x := by simpa [isLeafIdx] using h
    subst hix
    exact ⟨d, n, rfl⟩
  | branch q p l r n => simp [isLeafIdx] at h

lemma hasLeaf_delAux (t : RNode) (x : Nat) :
    ∀ t' y, y ≠ x → delAux t x = some t' → hasLeaf t' y = hasLeaf t y := by
  induction t, x using delAux.induct with
  | case1 i d n x =>
    intro t' y _ h
    simp [delAux] at h
  | case2 q p l r n x h1 =>
    intro t' y hne h
    simp only [delAux, if_pos h1] at h
    injection h with h
    subst h
    have hxy : (x == y) = false := by
      simp only [beq_eq_false_iff_ne, ne_eq]
      exact fun hh => hne hh.symm
    cases l with
    | leaf li ld ln => simp [directChildIdx] at h1
    | branch lq lp a b ln =>
      simp only [directChildIdx] at h1
      by_cases ha : isLeafIdx a x = true
      · obtain ⟨ad, an, rfl⟩ := isLeafIdx_eq a x ha
        simp [sibOf, isLeafIdx, hasLeaf_decAll, hasLeaf, hxy]
      · have ha' : isLeafIdx a x = false := by simpa using ha
        have hb : isLeafIdx b x = true := by simpa [ha'] using h1
        obtain ⟨bd, bn, rfl⟩ := isLeafIdx_eq b x hb
        rw [show sibOf (.branch lq lp a (.leaf x bd bn) ln) x = a by simp [sibOf, ha']]
        simp [hasLeaf_decAll, hasLeaf, hxy]
  | case3 q p l r n x h1 h2 =>
    intro t' y hne h
    simp only [delAux, if_neg h1, if_pos h2] at h
    injection h with h
    subst h
    have hxy : (x == y) = false := by
      simp only [beq_eq_false_iff_ne, ne_eq]
      exact fun hh => hne hh.symm
    cases r with
    | leaf ri rd rn => simp [directChildIdx] at h2
    | branch rq rp a b rn =>
      simp only [directChildIdx] at h2
      by_cases ha : isLeafIdx a x = true
      · obtain ⟨ad, an, rfl⟩ := isLeafIdx_eq a x ha
        simp [sibOf, isLeafIdx, hasLeaf_decAll, hasLeaf, hxy]
      · have ha' : isLeafIdx a x = false := by simpa using ha
        have hb : isLeafIdx b x = true := by simpa [ha'] using h2
        obtain ⟨bd, bn, rfl⟩ := isLeafIdx_eq b x hb
        rw [show sibOf (.branch rq rp a (.leaf x bd bn) rn) x = a by simp [sibOf, ha']]
        simp [hasLeaf_decAll, hasLeaf, hxy]
  | case4 q p l r n x h1 h2 h3 ih =>
    intro t' y hne h
    simp only [delAux, if_neg h1, if_neg h2, if_pos h3] at h
    rw [Option.map_eq_some'] at h
    obtain ⟨l1, hl1, rfl⟩ := h
    simp [hasLeaf, ih l1 y hne hl1]
  | case5 q p l r n x h1 h2 h3 h4 ih =>
    intro t' y hne h
    simp only [delAux, if_neg h1, if_neg h2, if_neg h3, if_pos h4] at h
    rw [Option.map_eq_some'] at h
    obtain ⟨r1, hr1, rfl⟩ := h
    simp [hasLeaf, ih r1 y hne hr1]
  | case6 q p l r n x h1 h2 h3 h4 =>
    intro t' y _ h
    simp [delAux, if_neg h1, if_neg h2, if_neg h3, if_neg h4] at h

lemma delAux_sublist (t : RNode) (x : Nat) :
    ∀ t', delAux t x = some t' → (leafIndices t').Sublist (leafIndices t) := by
  induction t, x using delAux.induct with
  | case1 i d n x =>
    intro t' h
    simp [delAux] at h
  | case2 q p l r n x h1 =>
    intro t' h
    simp only [delAux, if_pos h1] at h
    injection h with h
    subst h
    cases l with
    | leaf li ld ln => simp [directChildIdx] at h1
    | branch lq lp a b ln =>
      simp only [directChildIdx] at h1
      rw [leafIndices_decAll]
      by_cases ha : isLeafIdx a x = true
      · obtain ⟨ad, an, rfl⟩ := isLeafIdx_eq a x ha
        rw [show sibOf (.branch lq lp (.leaf x ad an) b ln) x = b by simp [sibOf, isLeafIdx]]
        simp only [leafIndices]
        exact (List.sublist_append_right _ _).append (List.Sublist.refl _)
      · have ha' : isLeafIdx a x = false := by simpa using ha
        rw [show sibOf (.branch lq lp a b ln) x = a by simp [sibOf, ha']]
        simp only [leafIndices]
        exact (List.sublist_append_left _ _).append (List.Sublist.refl _)
  | case3 q p l r n x h1 h2 =>
    intro t' h
    simp only [delAux, if_neg h1, if_pos h2] at h
    injection h with h
    subst h
    cases r with
    | leaf ri rd rn => simp [directChildIdx] at h2
    | branch rq rp a b rn =>
      simp only [directChildIdx] at h2
      rw [leafIndices_decAll]
      by_cases ha : isLeafIdx a x = true
      · obtain ⟨ad, an, rfl⟩ := isLeafIdx_eq a x ha
        rw [show sibOf (.branch rq rp (.leaf x ad an) b rn) x = b by simp [sibOf, isLeafIdx]]
        simp only [leafIndices]
        exact (List.Sublist.refl _).append (List.sublist_append_right _ _)
      · have ha' : isLeafIdx a x = false := by simpa using ha
        rw [show sibOf (.branch rq rp a b rn) x = a by simp [sibOf, ha']]
        simp only [leafIndices]
        exact (List.Sublist.refl _).append (List.sublist_append_left _ _)
  | case4 q p l r n x h1 h2 h3 ih =>
    intro t' h
    simp only [delAux, if_neg h1, if_neg h2, if_pos h3] at h
    rw [Option.map_eq_some'] at h
    obtain ⟨l1, hl1, rfl⟩ := h
    simp only [leafIndices]
    exact (ih l1 hl1).append (List.Sublist.refl _)
  | case5 q p l r n x h1 h2 h3 h4 ih =>
    intro t' h
    simp only [delAux, if_neg h1, if_neg h2, if_neg h3, if_pos h4] at h
    rw [Option.map_eq_some'] at h
    obtain ⟨r1, hr1, rfl⟩ := h
    simp only [leafIndices]
    exact (List.Sublist.refl _).append (ih r1 hr1)
  | case6 q p l r n x h1 h2 h3 h4 =>
    intro t' h
    simp [delAux, if_neg h1, if_neg h2, if_neg h3, if_neg h4] at h

lemma delAux_not_mem (t : RNode) (x : Nat) :
    ∀ t', (leafIndices t).Nodup → delAux t x = some t' → hasLeaf t' x = false := by
  induction t, x using delAux.induct with
  | case1 i d n x =>
    intro t' _ h
    simp [delAux] at h
  | case2 q p l r n x h1 =>
    intro t' hnd h
    simp only [delAux, if_pos h1] at h
    injection h with h
    subst h
    cases l with
    | leaf li ld ln => simp [directChildIdx] at h1
    | branch lq lp a b ln =>
      simp only [directChildIdx] at h1
      simp only [leafIndices] at hnd
      rw [hasLeaf_decAll]
      obtain ⟨hnd1, hnd2, hdisj⟩ := List.nodup_append.mp hnd
      obtain ⟨hnda, hndb, hdisj1⟩ := List.nodup_append.mp hnd1
      by_cases ha : isLeafIdx a x = true
      · obtain ⟨ad, an, rfl⟩ := isLeafIdx_eq a x ha
        rw [show sibOf (.branch lq lp (.leaf x ad an) b ln) x = b by simp [sibOf, isLeafIdx]]
        have hxb : x ∉ leafIndices b := fun hc => hdisj1 (by simp [leafIndices]) hc
        have hxr : x ∉ leafIndices r := fun hc => hdisj (by simp [leafIndices]) hc
        simp [hasLeaf, (hasLeaf_eq_false_iff b x).mpr hxb, (hasLeaf_eq_false_iff r x).mpr hxr]
      · have ha' : isLeafIdx a x = false := by simpa using ha
        have hb : isLeafIdx b x = true := by simpa [ha'] using h1
        obtain ⟨bd, bn, rfl⟩ := isLeafIdx_eq b x hb
        rw [show sibOf (.branch lq lp a (.leaf x bd bn) ln) x = a by simp [sibOf, ha']]
        have hxa : x ∉ leafIndices a := fun hc => hdisj1 hc (by simp [leafIndices])
        have hxr : x ∉ leafIndices r := fun hc => hdisj (by simp [leafIndices]) hc
        simp [hasLeaf, (hasLeaf_eq_false_iff a x).mpr hxa, (hasLeaf_eq_false_iff r x).mpr hxr]
  | case3 q p l r n x h1 h2 =>
    intro t' hnd h
    simp only [delAux, if_neg h1, if_pos h2] at h
    injection h with h
    subst h
    cases r with
    | leaf ri rd rn => simp [directChildIdx] at h2
    | branch rq rp a b rn =>
      simp only [directChildIdx] at h2
      simp only [leafIndices] at hnd
      rw [hasLeaf_decAll]
      obtain ⟨hnd1, hnd2, hdisj⟩ := List.nodup_append.mp hnd
      obtain ⟨hnda, hndb, hdisj1⟩ := List.nodup_append.mp hnd2
      by_cases ha : isLeafIdx a x = true
      · obtain ⟨ad, an, rfl⟩ := isLeafIdx_eq a x ha
        rw [show sibOf (.branch rq rp (.leaf x ad an) b rn) x = b by simp [sibOf, isLeafIdx]]
        have hxb : x ∉ leafIndices b := fun hc => hdisj1 (by simp [leafIndices]) hc
        have hxl : x ∉ leafIndices l := fun hc => hdisj hc (by simp [leafIndices])
        simp [hasLeaf, (hasLeaf_eq_false_iff b x).mpr hxb, (hasLeaf_eq_false_iff l x).mpr hxl]
      · have ha' : isLeafIdx a x = false := by simpa using ha
        have hb : isLeafIdx b x = true := by simpa [ha'] using h2
        obtain ⟨bd, bn, rfl⟩ := isLeafIdx_eq b x hb
        rw [show sibOf (.branch rq rp a (.leaf x bd bn) rn) x = a by simp [sibOf, ha']]
        have hxa : x ∉ leafIndices a := fun hc => hdisj1 hc (by simp [leafIndices])
        have hxl : x ∉ leafIndices l := fun hc => hdisj hc (by simp [leafIndices])
        simp [hasLeaf, (hasLeaf_eq_false_iff a x).mpr hxa, (hasLeaf_eq_false_iff l x).mpr hxl]
  | case4 q p l r n x h1 h2 h3 ih =>
    intro t' hnd h
    simp only [delAux, if_neg h1, if_neg h2, if_pos h3] at h
    rw [Option.map_eq_some'] at h
    obtain ⟨l1, hl1, rfl⟩ := h
    simp only [leafIndices] at hnd
    obtain ⟨hndl, hndr, hdisj⟩ := List.nodup_append.mp hnd
    have hxl : x ∈ leafIndices l := (hasLeaf_iff_mem l x).mp h3
    have hxr : x ∉ leafIndices r := fun hc => hdisj hxl hc
    simp [hasLeaf, ih l1 hndl hl1, (hasLeaf_eq_false_iff r x).mpr hxr]
  | case5 q p l r n x h1 h2 h3 h4 ih =>
    intro t' hnd h
    simp only [delAux, if_neg h1, if_neg h2, if_neg h3, if_pos h4] at h
    rw [Option.map_eq_some'] at h
    obtain ⟨r1, hr1, rfl⟩ := h
    simp only [leafIndices] at hnd
    obtain ⟨hndl, hndr, hdisj⟩ := List.nodup_append.mp hnd
    have hxr : x ∈ leafIndices r := (hasLeaf_iff_mem r x).mp h4
    have hxl : x ∉ leafIndices l := fun hc => hdisj hc hxr
    simp [hasLeaf, ih r1 hndr hr1, (hasLeaf_eq_false_iff l x).mpr hxl]
  | case6 q p l r n x h1 h2 h3 h4 =>
    intro t' _ h
    simp [delAux, if_neg h1, if_neg h2, if_neg h3, if_neg h4] at h

lemma delAux_some (t : RNode) (x : Nat) :
    hasLeaf t x = true → isLeafIdx t x = false → directChildIdx t x = false →
      (delAux t x).isSome = true := by
  induction t with
  | leaf i d n =>
    intro hx hleaf _
    have hix : i = x := by simpa [hasLeaf] using hx
    simp [isLeafIdx, hix] at hleaf
  | branch q p l r n ihl ihr =>
    intro hx hleaf hdc
    have hdl : isLeafIdx l x = false ∧ isLeafIdx r x = false := by
      simpa [directChildIdx] using hdc
    simp only [delAux]
    split_ifs with h1 h2 h3 h4
    · simp
    · simp
    · have hs := ihl h3 hdl.1 (by simpa using h1)
      simpa using hs
    · have hs := ihr h4 hdl.2 (by simpa using h2)
      simpa using hs
    · exfalso
      have hl' : hasLeaf l x = false := by simpa using h3
      have hr' : hasLeaf r x = false := by simpa using h4
      simp [hasLeaf, hl', hr'] at hx

lemma delete_ok_elim (t t' : RNode) (x : Nat) (h : delete_leaf t x = .ok t') :
    hasLeaf t x = true ∧ delAux t x = some t' := by
  cases t with
  | leaf i d n =>
    simp only [delete_leaf] at h
    by_cases hx : hasLeaf (RNode.leaf i d n) x = false
    · rw [if_pos hx] at h
      exact absurd h (by simp)
    · rw [if_neg hx] at h
      exact absurd h (by simp)
  | branch q p l r n =>
    simp only [delete_leaf] at h
    by_cases hx : hasLeaf (RNode.branch q p l r n) x = false
    · rw [if_pos hx] at h
      exact absurd h (by simp)
    · have hx' : hasLeaf (RNode.branch q p l r n) x = true := by simpa using hx
      rw [if_neg hx] at h
      refine ⟨hx', ?_⟩
      by_cases hd : directChildIdx (RNode.branch q p l r n) x = true
      · rw [if_pos hd] at h
        exact absurd h (by simp)
      · rw [if_neg hd] at h
        cases hda : delAux (RNode.branch q p l r n) x with
        | none =>
          rw [hda] at h
          exact absurd h (by simp)
        | some t2 =>
          rw [hda] at h
          have ht2 : t2 = t' := by simpa using h
          rw [← ht2]

lemma delAux_depth (t : RNode) (x : Nat) :
    ∀ t' y, (leafIndices t).Nodup → y ≠ x → hasLeaf t y = true → delAux t x = some t' →
      getLeafD t' y = getLeafD t y - (if underGP t x y = true then 1 else 0) := by
  induction t, x using delAux.induct with
  | case1 i d n x =>
    intro t' y _ _ _ h
    simp [delAux] at h
  | case2 q p l r n x h1 =>
    intro t' y _ hne hy h
    simp only [delAux, if_pos h1] at h
    injection h with h
    subst h
    have hgp : underGP (.branch q p l r n) x y = true := by
      simp only [underGP]
      rw [if_pos (by simp [h1])]
      exact hy
    rw [hgp, if_pos rfl]
    have hxy : (x == y) = false := by
      simp only [beq_eq_false_iff_ne, ne_eq]
      exact fun hh => hne hh.symm
    cases l with
    | leaf li ld ln => simp [directChildIdx] at h1
    | branch lq lp a b ln =>
      simp only [directChildIdx] at h1
      by_cases ha : isLeafIdx a x = true
      · obtain ⟨ad, an, rfl⟩ := isLeafIdx_eq a x ha
        rw [show sibOf (.branch lq lp (.leaf x ad an) b ln) x = b by simp [sibOf, isLeafIdx]]
        have hnew : hasLeaf (.branch q p b r n) y = true := by
          have h2 := hy
          simp [hasLeaf, hxy] at h2 ⊢
          exact h2
        rw [getLeafD_decAll _ _ hnew]
        have hgl : getLeafD (.branch q p b r n) y =
            getLeafD (.branch q p (.branch lq lp (.leaf x ad an) b ln) r n) y := by
          by_cases hby : hasLeaf b y = true
          · simp [getLeafD, hasLeaf, hxy, hby]
          · have hby' : hasLeaf b y = false := by simpa using hby
            simp [getLeafD, hasLeaf, hxy, hby']
        rw [hgl]
      · have ha' : isLeafIdx a x = false := by simpa using ha
        have hb : isLeafIdx b x = true := by simpa [ha'] using h1
        obtain ⟨bd, bn, rfl⟩ := isLeafIdx_eq b x hb
        rw [show sibOf (.branch lq lp a (.leaf x bd bn) ln) x = a by simp [sibOf, ha']]
        have hnew : hasLeaf (.branch q p a r n) y = true := by
          have h2 := hy
          simp [hasLeaf, hxy] at h2 ⊢
          exact h2
        rw [getLeafD_decAll _ _ hnew]
        have hgl : getLeafD (.branch q p a r n) y =
            getLeafD (.branch q p (.branch lq lp a (.leaf x bd bn) ln) r n) y := by
          by_cases hay : hasLeaf a y = true
          · simp [getLeafD, hasLeaf, hxy, hay]
          · have hay' : hasLeaf a y = false := by simpa using hay
            simp [getLeafD, hasLeaf, hxy, hay']
        rw [hgl]
  | case3 q p l r n x h1 h2 =>
    intro t' y _ hne hy h
    simp only [delAux, if_neg h1, if_pos h2] at h
    injection h with h
    subst h
    have hgp : underGP (.branch q p l r n) x y = true := by
      simp only [underGP]
      rw [if_pos (by simp [h2])]
      exact hy
    rw [hgp, if_pos rfl]
    have hxy : (x == y) = false := by
      simp only [beq_eq_false_iff_ne, ne_eq]
      exact fun hh => hne hh.symm
    cases r with
    | leaf ri rd rn => simp [directChildIdx] at h2
    | branch rq rp a b rn =>
      simp only [directChildIdx] at h2
      by_cases ha : isLeafIdx a x = true
      · obtain ⟨ad, an, rfl⟩ := isLeafIdx_eq a x ha
        rw [show sibOf (.branch rq rp (.leaf x ad an) b rn) x = b by simp [sibOf, isLeafIdx]]
        have hnew : hasLeaf (.branch q p l b n) y = true := by
          have h2y := hy
          simp [hasLeaf, hxy] at h2y ⊢
          exact h2y
        rw [getLeafD_decAll _ _ hnew]
        have hgl : getLeafD (.branch q p l b n) y =
            getLeafD (.branch q p l (.branch rq rp (.leaf x ad an) b rn) n) y := by
          by_cases hly : hasLeaf l y = true
          · simp [getLeafD, hasLeaf, hxy, hly]
          · have hly' : hasLeaf l y = false := by simpa using hly
            simp [getLeafD, hasLeaf, hxy, hly']
        rw [hgl]
      · have ha' : isLeafIdx a x = false := by simpa using ha
        have hb : isLeafIdx b x = true := by simpa [ha'] using h2
        obtain ⟨bd, bn, rfl⟩ := isLeafIdx_eq b x hb
        rw [show sibOf (.branch rq rp a (.leaf x bd bn) rn) x = a by simp [sibOf, ha']]
        have hnew : hasLeaf (.branch q p l a n) y = true := by
          have h2y := hy
          simp [hasLeaf, hxy] at h2y ⊢
          exact h2y
        rw [getLeafD_decAll _ _ hnew]
        have hgl : getLeafD (.branch q p l a n) y =
            getLeafD (.branch q p l (.branch rq rp a (.leaf x bd bn) rn) n) y := by
          by_cases hly : hasLeaf l y = true
          · simp [getLeafD, hasLeaf, hxy, hly]
          · have hly' : hasLeaf l y = false := by simpa using hly
            by_cases hay : hasLeaf a y = true
            · simp [getLeafD, hasLeaf, hxy, hly', hay]
            · have hay' : hasLeaf a y = false := by simpa using hay
              simp [getLeafD, hasLeaf, hxy, hly', hay', getLeafD_of_not_has a y hay']
        rw [hgl]
  | case4 q p l r n x h1 h2 h3 ih =>
    intro t' y hnd hne hy h
    simp only [delAux, if_neg h1, if_neg h2, if_pos h3] at h
    rw [Option.map_eq_some'] at h
    obtain ⟨l1, hl1, rfl⟩ := h
    have hor : ¬((directChildIdx l x || directChildIdx r x) = true) := by
      have hA : directChildIdx l x = false := by simpa using h1
      have hB : directChildIdx r x = false := by simpa using h2
      simp [hA, hB]
    have hgp : underGP (.branch q p l r n) x y = underGP l x y := by
      simp only [underGP]
      rw [if_neg hor, if_pos h3]
    rw [hgp]
    have hndl : (leafIndices l).Nodup :=
      (List.nodup_append.mp (by simpa [leafIndices] using hnd)).1
    by_cases hly : hasLeaf l y = true
    · have hl1y : hasLeaf l1 y = hasLeaf l y := hasLeaf_delAux l x l1 y hne hl1
      have hrec := ih l1 y hndl hne hly hl1
      simp [getLeafD, hl1y, hly, hrec]
    · have hly' : hasLeaf l y = false := by simpa using hly
      have hl1y : hasLeaf l1 y = false := by
        rw [hasLeaf_delAux l x l1 y hne hl1]
        exact hly'
      rw [underGP_of_not_has l x y hly']
      simp [getLeafD, hl1y, hly']
  | case5 q p l r n x h1 h2 h3 h4 ih =>
    intro t' y hnd hne hy h
    simp only [delAux, if_neg h1, if_neg h2, if_neg h3, if_pos h4] at h
    rw [Option.map_eq_some'] at h
    obtain ⟨r1, hr1, rfl⟩ := h
    have hor : ¬((directChildIdx l x || directChildIdx r x) = true) := by
      have hA : directChildIdx l x = false := by simpa using h1
      have hB : directChildIdx r x = false := by simpa using h2
      simp [hA, hB]
    have hgp : underGP (.branch q p l r n) x y = underGP r x y := by
      simp only [underGP]
      rw [if_neg hor, if_neg h3, if_pos h4]
    rw [hgp]
    obtain ⟨hndl, hndr, hdisj⟩ := List.nodup_append.mp (by simpa [leafIndices] using hnd :
      ((leafIndices l) ++ (leafIndices r)).Nodup)
    by_cases hly : hasLeaf l y = true
    · have hyr : hasLeaf r y = false := by
        refine (hasLeaf_eq_false_iff r y).mpr fun hc => ?_
        exact hdisj ((hasLeaf_iff_mem l y).mp hly) hc
      rw [underGP_of_not_has r x y hyr]
      simp [getLeafD, hly]
    · have hly' : hasLeaf l y = false := by simpa using hly
      have hry : hasLeaf r y = true := by
        have h2 := hy
        simp [hasLeaf, hly'] at h2
        exact h2
      have hr1y : hasLeaf r1 y = hasLeaf r y := hasLeaf_delAux r x r1 y hne hr1
      have hrec := ih r1 y hndr hne hry hr1
      simp [getLeafD, hr1y, hry, hly', hrec]
  | case6 q p l r n x h1 h2 h3 h4 =>
    intro t' y _ _ _ h
    simp [delAux, if_neg h1, if_neg h2, if_neg h3, if_neg h4] at h

lemma query_decAll (t : RNode) (pt : List ℚ) : query (decAll t) pt = decAll (query t pt) := by
  induction t with
  | leaf i d n => rfl
  | branch q p l r n ihl ihr =>
    by_cases hc : coordOf pt q ≤ p <;> simp [decAll, query, hc, ihl, ihr]

lemma query_countAll (t : RNode) (pt : List ℚ) :
    query (count_all_top_down t) pt = count_all_top_down (query t pt) := by
  induction t with
  | leaf i d n => rfl
  | branch q p l r n ihl ihr =>
    by_cases hc : coordOf pt q ≤ p <;> simp [count_all_top_down, query, hc, ihl, ihr]

lemma hasLeaf_countAll (t : RNode) (y : Nat) :
    hasLeaf (count_all_top_down t) y = hasLeaf t y := by
  induction t with
  | leaf i d n => rfl
  | branch q p l r n ihl ihr => simp [count_all_top_down, hasLeaf, ihl, ihr]

lemma leafIndices_countAll (t : RNode) :
    leafIndices (count_all_top_down t) = leafIndices t := by
  induction t with
  | leaf i d n => rfl
  | branch q p l r n ihl ihr => simp [count_all_top_down, leafIndices, ihl, ihr]

lemma built_leaves_perm {X : List (List ℚ)} {S : List Nat} {d : Int} {t : RNode}
    (h : Built X S d t) : (leafIndices t).Perm S := by
  induction h with
  | single i0 d0 => simp [leafIndices]
  | node S q p d0 l r hlen hlow hhigh hl hr ihl ihr =>
    have hperm := (ihl.append ihr).trans (List.filter_append_perm _ S)
    simpa [leafIndices] using hperm

lemma built_query {X : List (List ℚ)} {S : List Nat} {d : Int} {t : RNode}
    (h : Built X S d t) :
    ∀ i, i ∈ S → ∃ dd, query t (X.getD i []) = RNode.leaf i dd 1 := by
  induction h with
  | single i0 d0 =>
    intro i hi
    have hii : i = i0 := by simpa using hi
    subst hii
    exact ⟨d0, rfl⟩
  | node S q p d0 l r hlen hlow hhigh hl hr ihl ihr =>
    intro i hi
    by_cases hc : coordQ X i q ≤ p
    · have hi1 : i ∈ S.filter (fun j => decide (coordQ X j q ≤ p)) :=
        List.mem_filter.mpr ⟨hi, by simp [hc]⟩
      obtain ⟨dd, hq⟩ := ihl i hi1
      refine ⟨dd, ?_⟩
      have hc' : coordOf (X.getD i []) q ≤ p := hc
      simp only [query]
      rw [if_pos hc']
      exact hq
    · have hi2 : i ∈ S.filter (fun j => ! decide (coordQ X j q ≤ p)) :=
        List.mem_filter.mpr ⟨hi, by simp [hc]⟩
      obtain ⟨dd, hq⟩ := ihr i hi2
      refine ⟨dd, ?_⟩
      have hc' : ¬(coordOf (X.getD i []) q ≤ p) := hc
      simp only [query]
      rw [if_neg hc']
      exact hq

lemma delAux_query (t : RNode) (x : Nat) :
    ∀ t' pt y dy ny, y ≠ x → delAux t x = some t' → query t pt = RNode.leaf y dy ny →
      ∃ d2 n2, query t' pt = RNode.leaf y d2 n2 := by
  induction t, x using delAux.induct with
  | case1 i d n x =>
    intro t' pt y dy ny _ h _
    simp [delAux] at h
  | case2 q p l r n x h1 =>
    intro t' pt y dy ny hne h hq
    simp only [delAux, if_pos h1] at h
    injection h with h
    subst h
    cases l with
    | leaf li ld ln => simp [directChildIdx] at h1
    | branch lq lp a b ln =>
      simp only [directChildIdx] at h1
      by_cases hc : coordOf pt q ≤ p
      · have hq' : query (RNode.branch lq lp a b ln) pt = RNode.leaf y dy ny := by
          simpa [query, hc] using hq
        by_cases ha : isLeafIdx a x = true
        · obtain ⟨ad, an, rfl⟩ := isLeafIdx_eq a x ha
          rw [show sibOf (.branch lq lp (.leaf x ad an) b ln) x = b by simp [sibOf, isLeafIdx]]
          by_cases hc2 : coordOf pt lq ≤ lp
          · exfalso
            have hxx : query (RNode.branch lq lp (RNode.leaf x ad an) b ln) pt =
                RNode.leaf x ad an := by simp [query, hc2]
            rw [hxx] at hq'
            injection hq' with hxy
            exact hne hxy.symm
          · have hqb : query b pt = RNode.leaf y dy ny := by simpa [query, hc2] using hq'
            refine ⟨dy - 1, ny, ?_⟩
            rw [query_decAll]
            rw [show query (RNode.branch q p b r n) pt = RNode.leaf y dy ny by
              simp [query, hc, hqb]]
            rfl
        · have ha' : isLeafIdx a x = false := by simpa using ha
          have hb : isLeafIdx b x = true := by simpa [ha'] using h1
          obtain ⟨bd, bn, rfl⟩ := isLeafIdx_eq b x hb
          rw [show sibOf (.branch lq lp a (.leaf x bd bn) ln) x = a by simp [sibOf, ha']]
          by_cases hc2 : coordOf pt lq ≤ lp
          · have hqa : query a pt = RNode.leaf y dy ny := by simpa [query, hc2] using hq'
            refine ⟨dy - 1, ny, ?_⟩
            rw [query_decAll]
            rw [show query (RNode.branch q p a r n) pt = RNode.leaf y dy ny by
              simp [query, hc, hqa]]
            rfl
          · exfalso
            have hxx : query (RNode.branch lq lp a (RNode.leaf x bd bn) ln) pt =
                RNode.leaf x bd bn := by simp [query, hc2]
            rw [hxx] at hq'
            injection hq' with hxy
            exact hne hxy.symm
      · have hqr : query r pt = RNode.leaf y dy ny := by simpa [query, hc] using hq
        refine ⟨dy - 1, ny, ?_⟩
        rw [query_decAll]
        rw [show query (RNode.branch q p (sibOf (RNode.branch lq lp a b ln) x) r n) pt =
            RNode.leaf y dy ny by simp [query, hc, hqr]]
        rfl
  | case3 q p l r n x h1 h2 =>
    intro t' pt y dy ny hne h hq
    simp only [delAux, if_neg h1, if_pos h2] at h
    injection h with h
    subst h
    cases r with
    | leaf ri rd rn => simp [directChildIdx] at h2
    | branch rq rp a b rn =>
      simp only [directChildIdx] at h2
      by_cases hc : coordOf pt q ≤ p
      · have hql : query l pt = RNode.leaf y dy ny := by simpa [query, hc] using hq
        refine ⟨dy - 1, ny, ?_⟩
        rw [query_decAll]
        rw [show query (RNode.branch q p l (sibOf (RNode.branch rq rp a b rn) x) n) pt =
            RNode.leaf y dy ny by simp [query, hc, hql]]
        rfl
      · have hq' : query (RNode.branch rq rp a b rn) pt = RNode.leaf y dy ny := by
          simpa [query, hc] using hq
        by_cases ha : isLeafIdx a x = true
        · obtain ⟨ad, an, rfl⟩ := isLeafIdx_eq a x ha
          rw [show sibOf (.branch rq rp (.leaf x ad an) b rn) x = b by simp [sibOf, isLeafIdx]]
          by_cases hc2 : coordOf pt rq ≤ rp
          · exfalso
            have hxx : query (RNode.branch rq rp (RNode.leaf x ad an) b rn) pt =
                RNode.leaf x ad an := by simp [query, hc2]
            rw [hxx] at hq'
            injection hq' with hxy
            exact hne hxy.symm
          · have hqb : query b pt = RNode.leaf y dy ny := by simpa [query, hc2] using hq'
            refine ⟨dy - 1, ny, ?_⟩
            rw [query_decAll]
            rw [show query (RNode.branch q p l b n) pt = RNode.leaf y dy ny by
              simp [query, hc, hqb]]
            rfl
        · have ha' : isLeafIdx a x = false := by simpa using ha
          have hb : isLeafIdx b x = true := by simpa [ha'] using h2
          obtain ⟨bd, bn, rfl⟩ := isLeafIdx_eq b x hb
          rw [show sibOf (.branch rq rp a (.leaf x bd bn) rn) x = a by simp [sibOf, ha']]
          by_cases hc2 : coordOf pt rq ≤ rp
          · have hqa : query a pt = RNode.leaf y dy ny := by simpa [query, hc2] using hq'
            refine ⟨dy - 1, ny, ?_⟩
            rw [query_decAll]
            rw [show query (RNode.branch q p l a n) pt = RNode.leaf y dy ny by
              simp [query, hc, hqa]]
            rfl
          · exfalso
            have hxx : query (RNode.branch rq rp a (RNode.leaf x bd bn) rn) pt =
                RNode.leaf x bd bn := by simp [query, hc2]
            rw [hxx] at hq'
            injection hq' with hxy
            exact hne hxy.symm
  | case4 q p l r n x h1 h2 h3 ih =>
    intro t' pt y dy ny hne h hq
    simp only [delAux, if_neg h1, if_neg h2, if_pos h3] at h
    rw [Option.map_eq_some'] at h
    obtain ⟨l1, hl1, rfl⟩ := h
    by_cases hc : coordOf pt q ≤ p
    · have hql : query l pt = RNode.leaf y dy ny := by simpa [query, hc] using hq
      obtain ⟨d2, n2, hq2⟩ := ih l1 pt y dy ny hne hl1 hql
      exact ⟨d2, n2, by simp [query, hc, hq2]⟩
    · have hqr : query r pt = RNode.leaf y dy ny := by simpa [query, hc] using hq
      exact ⟨dy, ny, by simp [query, hc, hqr]⟩
  | case5 q p l r n x h1 h2 h3 h4 ih =>
    intro t' pt y dy ny hne h hq
    simp only [delAux, if_neg h1, if_neg h2, if_neg h3, if_pos h4] at h
    rw [Option.map_eq_some'] at h
    obtain ⟨r1, hr1, rfl⟩ := h
    by_cases hc : coordOf pt q ≤ p
    · have hql : query l pt = RNode.leaf y dy ny := by simpa [query, hc] using hq
      exact ⟨dy, ny, by simp [query, hc, hql]⟩
    · have hqr : query r pt = RNode.leaf y dy ny := by simpa [query, hc] using hq
      obtain ⟨d2, n2, hq2⟩ := ih r1 pt y dy ny hne hr1 hqr
      exact ⟨d2, n2, by simp [query, hc, hq2]⟩
  | case6 q p l r n x h1 h2 h3 h4 =>
    intro t' pt y dy ny _ h _
    simp [delAux, if_neg h1, if_neg h2, if_neg h3, if_neg h4] at h

lemma reachable_nodup {X : List (List ℚ)} {t : RNode} (h : Reachable X t) :
    (leafIndices t).Nodup := by
  induction h with
  | built t0 t hb he =>
    subst he
    rw [leafIndices_countAll]
    exact (built_leaves_perm hb).nodup_iff.mpr (List.nodup_range _)
  | step t t' x hr hok ih =>
    obtain ⟨hx, hda⟩ := delete_ok_elim t t' x hok
    exact (delAux_sublist t x t' hda).nodup ih

lemma built_T3raw : Built X3 [0, 1, 2] 0 T3raw := by
  have hleft : Built X3 ([0, 1, 2].filter (fun i => decide (coordQ X3 i 0 ≤ (1 : ℚ)))) (0 + 1)
      (.branch 0 0 (.leaf 0 2 1) (.leaf 1 2 1) 0) := by
    rw [show [0, 1, 2].filter (fun i => decide (coordQ X3 i 0 ≤ (1 : ℚ))) = [0, 1] from rfl]
    refine Built.node [0, 1] 0 0 1 _ _ (by norm_num) (by decide) (by decide) ?_ ?_
    · rw [show [0, 1].filter (fun i => decide (coordQ X3 i 0 ≤ (0 : ℚ))) = [0] from rfl]
      exact Built.single 0 2
    · rw [show [0, 1].filter (fun i => ! decide (coordQ X3 i 0 ≤ (0 : ℚ))) = [1] from rfl]
      exact Built.single 1 2
  have hright : Built X3 ([0, 1, 2].filter (fun i => ! decide (coordQ X3 i 0 ≤ (1 : ℚ)))) (0 + 1)
      (.leaf 2 1 1) := by
    rw [show [0, 1, 2].filter (fun i => ! decide (coordQ X3 i 0 ≤ (1 : ℚ))) = [2] from rfl]
    exact Built.single 2 1
  exact Built.node [0, 1, 2] 0 1 0 _ _ (by norm_num) (by decide) (by decide) hleft hright

lemma reachable_T3 : Reachable X3 T3 :=
  Reachable.built T3raw T3
    (by rw [show List.range X3.length = [0, 1, 2] from rfl]; exact built_T3raw) rfl

/-- C1: after construction the count invariant holds on T3, and
delete_leaf(0) succeeds but leaves every ancestor's stored n unchanged
(the root still stores n = 3 although only 2 leaves remain), so a
Branch's n no longer equals the sum of its children's n after a
delete. -/
theorem delete_leaves_counts_stale :
    countOK T3 = true ∧ delete_leaf T3 0 = .ok T3del ∧ nOf T3del = 3 ∧
      (leafIndices T3del).length = 2 ∧ countOK T3del = false :=
  ⟨rfl, rfl, rfl, rfl, rfl⟩

/-- C2: codisp accumulates the self and sibling leaf counts across
levels without ever resetting the accumulators, so on T10 it returns
the cumulative value 3 for leaf 0, while the per-level maximum ratio
described by the spec (count_sibling over count_self at each ancestor
level) is 4. -/
theorem codisp_cumulative_bug :
    hasLeaf T10 0 = true ∧ codisp T10 0 = .ok 3 ∧ codisp_spec T10 0 = .ok 4 ∧
      (3 : ℚ) ≠ 4 := by
  have hh : hasLeaf T10 0 = true := rfl
  refine ⟨rfl, ?_, ?_, by norm_num⟩
  · have h1 : (levels T10 0).take (getLeafD T10 0).toNat = [(1, 1), (2, 8)] := rfl
    unfold codisp
    rw [h1]
    simp only [hh]
    norm_num [ratiosCum]
  · have h1 : levels T10 0 = [(1, 1), (2, 8)] := rfl
    unfold codisp_spec
    rw [h1]
    simp only [hh]
    norm_num

/-- C3: on T10, whose counts n are correctly maintained, codisp_all
computes the per-level ratio maximum 4 for leaf 0 from the stored n
fields, while codisp returns the cumulative value 3, so codisp_all
does not agree with codisp. -/
theorem codisp_all_mismatch :
    countOK T10 = true ∧ codisp T10 0 = .ok 3 ∧ codispAllAt T10 0 = .ok 4 ∧
      (codisp_all T10).lookup 0 = some (codispAllAt T10 0) ∧ (3 : ℚ) ≠ 4 := by
  refine ⟨rfl, ?_, ?_, rfl, by norm_num⟩
  · have hh : hasLeaf T10 0 = true := rfl
    have h1 : (levels T10 0).take (getLeafD T10 0).toNat = [(1, 1), (2, 8)] := rfl
    unfold codisp
    rw [h1]
    simp only [hh]
    norm_num [ratiosCum]
  · have h1 : (levelsN T10 0).take (getLeafD T10 0).toNat = [(1, 1), (2, 8)] := rfl
    unfold codispAllAt
    rw [h1]
    norm_num

/-- C4: the depth invariant holds on T3 after construction, but after
the successful delete_leaf(0) the leaf with index 2 stores depth 0
while it still has 1 Branch ancestor, because the depth decrement walks
from the grandparent and also hits leaves whose paths did not change. -/
theorem delete_breaks_depths :
    depthsFrom T3 0 = true ∧ delete_leaf T3 0 = .ok T3del ∧
      getLeafD T3del 2 = 0 ∧ ancestorCount T3del 2 = 1 ∧ depthsFrom T3del 0 = false :=
  ⟨rfl, rfl, rfl, rfl, rfl⟩

/-- C5: on every successful delete_leaf(x) from a tree with distinct
leaf indices, the stored depth of every remaining leaf beneath the
grandparent of x decreases by exactly 1 and the stored depth of every
other leaf is unchanged. -/
theorem delete_depth_frame (t t' : RNode) (x y : Nat)
    (hnd : (leafIndices t).Nodup) (hok : delete_leaf t x = .ok t')
    (hy : hasLeaf t y = true) (hne : y ≠ x) :
    getLeafD t' y = getLeafD t y - (if underGP t x y = true then 1 else 0) := by
  obtain ⟨hx, hda⟩ := delete_ok_elim t t' x hok
  exact delAux_depth t x t' y hnd hne hy hda

/-- Witness for C5: deleting leaf 0 from T3 decrements the depths of
leaves 1 and 2, both of which lie beneath the grandparent (the root). -/
theorem delete_depth_frame_witness :
    delete_leaf T3 0 = .ok T3del ∧ underGP T3 0 1 = true ∧ underGP T3 0 2 = true ∧
      getLeafD T3del 1 = getLeafD T3 1 - 1 ∧ getLeafD T3del 2 = getLeafD T3 2 - 1 := by
  refine ⟨rfl, rfl, rfl, ?_, ?_⟩
  · have h := delete_depth_frame T3 T3del 0 1 (by decide) rfl rfl (by decide)
    simpa [show underGP T3 0 1 = true from rfl] using h
  · have h := delete_depth_frame T3 T3del 0 2 (by decide) rfl rfl (by decide)
    simpa [show underGP T3 0 2 = true from rfl] using h

/-- C6 (amended): delete_leaf fails with KeyError exactly when the
index is absent; it fails with AttributeError both when the target
leaf is the root (parent is None) and when the leaf's parent is the
root (grandparent is None); it succeeds whenever the index is present
and the leaf has a grandparent. -/
theorem delete_error_classification (t : RNode) (x : Nat) :
    (hasLeaf t x = false → delete_leaf t x = .error .keyError) ∧
    (hasLeaf t x = true → isLeafIdx t x = true → delete_leaf t x = .error .attributeError) ∧
    (hasLeaf t x = true → directChildIdx t x = true →
      delete_leaf t x = .error .attributeError) ∧
    (hasLeaf t x = true → isLeafIdx t x = false → directChildIdx t x = false →
      ∃ t', delete_leaf t x = .ok t') := by
  refine ⟨?_, ?_, ?_, ?_⟩
  · intro hx
    simp [delete_leaf, hx]
  · intro hx hleaf
    cases t with
    | leaf i d n =>
      simp only [delete_leaf]
      rw [if_neg (by simp [hx])]
    | branch q p l r n => simp [isLeafIdx] at hleaf
  · intro hx hdc
    cases t with
    | leaf i d n => simp [directChildIdx] at hdc
    | branch q p l r n =>
      simp only [delete_leaf]
      rw [if_neg (by simp [hx]), if_pos hdc]
  · intro hx hleaf hdc
    cases t with
    | leaf i d n =>
      exfalso
      have hix : i = x := by simpa [hasLeaf] using hx
      simp [isLeafIdx, hix] at hleaf
    | branch q p l r n =>
      have hsome := delAux_some (RNode.branch q p l r n) x hx hleaf hdc
      obtain ⟨t2, ht2⟩ := Option.isSome_iff_exists.mp hsome
      refine ⟨t2, ?_⟩
      simp only [delete_leaf]
      rw [if_neg (by simp [hx]), if_neg (by simp [hdc]), ht2]

/-- Witness for C6: a missing index raises KeyError; deleting a leaf
whose parent is the root of the two-point tree raises AttributeError;
deleting a leaf with a grandparent succeeds. -/
theorem delete_error_classification_witness :
    delete_leaf T3 5 = .error .keyError ∧
      delete_leaf T2 0 = .error .attributeError ∧
      ∃ t', delete_leaf T3 0 = .ok t' :=
  ⟨(delete_error_classification T3 5).1 rfl,
   (delete_error_classification T2 0).2.2.1 rfl rfl,
   (delete_error_classification T3 0).2.2.2 rfl rfl rfl⟩

/-- C6 counterexample: index 0 is present in the two-point tree T2 and
its leaf is not the root, yet delete_leaf fails (AttributeError on the
missing grandparent) instead of succeeding as the claim states. -/
theorem delete_parent_root_cex :
    hasLeaf T2 0 = true ∧ isLeafIdx T2 0 = false ∧
      delete_leaf T2 0 = .error .attributeError :=
  ⟨rfl, rfl, rfl⟩

/-- C7: on two coincident points every per-dimension range is zero, so
the cut step divides the range vector by a zero sum, producing NaN
probabilities on which np.random.choice raises ValueError; the failure
is not the designated DegenerateInput the claim requires. -/
theorem coincident_points_cut_nan :
    cut X2c [0, 1] 2 0 0 = .error .nanProbValueError ∧
      cut X2c [0, 1] 2 0 0 ≠ .error .degenerateInput := by
  have h : (ranges X2c [0, 1] 2).sum = 0 := by
    show ((List.range 2).map _).sum = 0
    norm_num [List.range_succ, xmaxQ, xminQ, coordQ, X2c]
  constructor
  · simp [cut, h]
  · simp [cut, h]

/-- C8: on every reachable tree (construction followed by any sequence
of successful deletes), querying the original point of a surviving
index descends to and returns the leaf holding that index. -/
theorem query_returns_surviving_leaf (X : List (List ℚ)) (t : RNode) (h : Reachable X t)
    (i : Nat) (hi : hasLeaf t i = true) :
    ∃ dd nn, query t (X.getD i []) = RNode.leaf i dd nn := by
  revert hi
  induction h with
  | built t0 t hb he =>
    intro hi
    subst he
    rw [hasLeaf_countAll] at hi
    have hmem : i ∈ List.range X.length :=
      (built_leaves_perm hb).mem_iff.mp ((hasLeaf_iff_mem t0 i).mp hi)
    obtain ⟨dd, hq⟩ := built_query hb i hmem
    refine ⟨dd, 1, ?_⟩
    rw [query_countAll, hq]
    rfl
  | step t t' x hr hok ih =>
    intro hi
    obtain ⟨hx, hda⟩ := delete_ok_elim t t' x hok
    have hnd := reachable_nodup hr
    have hxgone : hasLeaf t' x = false := delAux_not_mem t x t' hnd hda
    have hix : i ≠ x := by
      intro hh
      subst hh
      rw [hi] at hxgone
      exact absurd hxgone (by decide)
    have hit : hasLeaf t i = true := by
      have hmem := (hasLeaf_iff_mem t' i).mp hi
      exact (hasLeaf_iff_mem t i).mpr ((delAux_sublist t x t' hda).subset hmem)
    obtain ⟨dy, ny, hq⟩ := ih hit
    exact delAux_query t x t' (X.getD i []) i dy ny hix hda hq

/-- Witness for C8: in the constructed tree T3, querying the original
point of index 2 returns the leaf holding index 2. -/
theorem query_surviving_witness :
    hasLeaf T3 2 = true ∧ ∃ dd nn, query T3 (X3.getD 2 []) = RNode.leaf 2 dd nn :=
  ⟨rfl, query_returns_surviving_leaf X3 T3 reachable_T3 2 rfl⟩

/-- C9: every tree produced by construction partitions the original
indices: its leaf indices are a permutation of 0..n-1, so every
original index appears in exactly one leaf (and each leaf holds
exactly one index); the node type itself forces every Branch to have
exactly two children. -/
theorem built_tree_partition (X : List (List ℚ)) (t : RNode) (h : BuiltTree X t) :
    (leafIndices t).Perm (List.range X.length) ∧
      ∀ i ∈ leafIndices t, (leafIndices t).count i = 1 := by
  obtain ⟨t0, hb, rfl⟩ := h
  have hperm : (leafIndices (count_all_top_down t0)).Perm (List.range X.length) := by
    rw [leafIndices_countAll]
    exact built_leaves_perm hb
  refine ⟨hperm, fun i hi => ?_⟩
  exact List.count_eq_one_of_mem (hperm.nodup_iff.mpr (List.nodup_range _)) hi

/-- Witness for C9: the leaf indices of the constructed tree T3 are a
permutation of 0, 1, 2, each appearing exactly once. -/
theorem built_tree_partition_witness :
    (leafIndices T3).Perm (List.range X3.length) ∧
      ∀ i ∈ leafIndices T3, (leafIndices T3).count i = 1 :=
  built_tree_partition X3 T3
    ⟨T3raw, by rw [show List.range X3.length = [0, 1, 2] from rfl]; exact built_T3raw, rfl⟩

/-- C10: query, disp, codisp, disp_all and codisp_all are read-only:
their method bodies assign no node attribute and do not touch the
leaves dict, so in state-passing form each returns the tree state
unchanged. -/
theorem scoring_query_read_only (t : RNode) (pt : List ℚ) (x : Nat) :
    (queryS t pt).1 = t ∧ (dispS t x).1 = t ∧ (codispS t x).1 = t ∧
      (dispAllS t).1 = t ∧ (codispAllS t).1 = t :=
  ⟨rfl, rfl, rfl, rfl, rfl⟩

end RRCF
